import Mathlib

/-!
Verification of the exocommand execution core: the process runner
(`executeCommand` / `streamLines` in `src/executor.ts`), the streaming-mode
classification in `src/server.ts`, and the background task lifecycle in
`src/task.ts`.  Strings are embedded as `List Char`; the per-stream line
splitter `buffer.split("\n")` is embedded as `splitLines`.
-/

/-- Log severity attached to a dispatched line (`"info" | "error"`). -/
inductive Level where
  | info
  | error
deriving DecidableEq, Repr

/-- Which process stream a line came from (`"stdout" | "stderr"`). -/
inductive Source where
  | stdout
  | stderr
deriving DecidableEq, Repr

/-- Embedding of `const level = logger === "stderr" ? "error" : "info"` in `streamLines`. -/
def levelOf : Source → Level
  | Source.stderr => Level.error
  | Source.stdout => Level.info

/-- One classified line of captured process output, as handed to `log`. -/
structure LogRecord where
  level : Level
  source : Source
  text : List Char
deriving DecidableEq, Repr

/-- Embedding of JavaScript `s.split("\n")`: the segments of `s` between
newline characters, always at least one (possibly empty) segment. -/
def splitLines : List Char → List (List Char)
  | [] => [[]]
  | c :: cs =>
    if c = '\n' then [] :: splitLines cs
    else
      match splitLines cs with
      | [] => [[c]]
      | l :: ls => (c :: l) :: ls

/-- Prepend a buffer onto the first segment of a segment list. -/
def consBuf (b : List Char) : List (List Char) → List (List Char)
  | [] => [b]
  | l :: ls => (b ++ l) :: ls

theorem splitLines_ne_nil (s : List Char) : splitLines s ≠ [] := by
  induction s with
  | nil => simp [splitLines]
  | cons c cs ih =>
    simp only [splitLines]
    split
    · simp
    · cases h : splitLines cs with
      | nil => simp
      | cons l ls => simp

theorem consBuf_ne_nil (b : List Char) (ls : List (List Char)) :
    consBuf b ls ≠ [] := by
  cases ls <;> simp [consBuf]

theorem consBuf_nil_of_ne_nil (ls : List (List Char)) (h : ls ≠ []) :
    consBuf [] ls = ls := by
  cases ls with
  | nil => exact absurd rfl h
  | cons l rest => simp [consBuf]

theorem splitLines_exists_cons (s : List Char) :
    ∃ l ls, splitLines s = l :: ls := by
  cases h : splitLines s with
  | nil => exact absurd h (splitLines_ne_nil s)
  | cons l ls => exact ⟨l, ls, rfl⟩

theorem splitLines_newline_cons (cs : List Char) :
    splitLines ('\n' :: cs) = [] :: splitLines cs := by
  simp [splitLines]

theorem splitLines_cons_ne (c : Char) (cs : List Char) (hc : c ≠ '\n')
    (l : List Char) (ls : List (List Char)) (h : splitLines cs = l :: ls) :
    splitLines (c :: cs) = (c :: l) :: ls := by
  simp [splitLines, hc, h]

/-- No segment produced by `splitLines` contains a newline. -/
theorem splitLines_no_newline (s : List Char) :
    ∀ l ∈ splitLines s, '\n' ∉ l := by
  induction s with
  | nil =>
    intro l hl
    have : l = [] := by simpa [splitLines] using hl
    simp [this]
  | cons c cs ih =>
    intro l hl
    by_cases hc : c = '\n'
    · subst hc
      rw [splitLines_newline_cons] at hl
      rcases List.mem_cons.mp hl with h | h
      · simp [h]
      · exact ih l h
    · obtain ⟨m, ms, hsplit⟩ := splitLines_exists_cons cs
      rw [splitLines_cons_ne c cs hc m ms hsplit] at hl
      rcases List.mem_cons.mp hl with h | h
      · subst h
        intro hmem
        rcases List.mem_cons.mp hmem with h2 | h2
        · exact hc h2.symm
        · exact ih m (by rw [hsplit]; exact List.mem_cons_self m ms) h2
      · exact ih l (by rw [hsplit]; exact List.mem_cons_of_mem m h)

/-- Splitting a newline-free string yields that single segment. -/
theorem splitLines_of_no_newline (s : List Char) (h : '\n' ∉ s) :
    splitLines s = [s] := by
  induction s with
  | nil => simp [splitLines]
  | cons c cs ih =>
    have hc : c ≠ '\n' := fun hc => h (by simp [hc])
    have hcs : '\n' ∉ cs := fun hm => h (by simp [hm])
    rw [splitLines_cons_ne c cs hc cs [] (ih hcs)]

/-- The buffer-carry law for `splitLines`: splitting a concatenation is the
left part's complete segments followed by its trailing remainder glued onto
the right part's first segment. -/
theorem splitLines_append (s t : List Char) :
    splitLines (s ++ t) =
      (splitLines s).dropLast ++ consBuf ((splitLines s).getLastD []) (splitLines t) := by
  induction s with
  | nil =>
    simp only [List.nil_append]
    exact (consBuf_nil_of_ne_nil _ (splitLines_ne_nil t)).symm
  | cons c cs ih =>
    obtain ⟨l, ls, hsplit⟩ := splitLines_exists_cons cs
    by_cases hc : c = '\n'
    · subst hc
      rw [List.cons_append, splitLines_newline_cons, splitLines_newline_cons, ih, hsplit]
      simp [List.getLastD_cons]
    · rw [List.cons_append, splitLines_cons_ne c cs hc l ls hsplit]
      cases ls with
      | nil =>
        obtain ⟨p, ps, hsplit3⟩ := splitLines_exists_cons t
        have h2 : splitLines (cs ++ t) = (l ++ p) :: ps := by
          rw [ih, hsplit, hsplit3]
          simp [consBuf, List.getLastD_cons]
        rw [splitLines_cons_ne c (cs ++ t) hc (l ++ p) ps h2, hsplit3]
        simp [consBuf]
      | cons l2 ls2 =>
        have hg : ∀ x : List Char, (x :: l2 :: ls2).getLastD [] = (l2 :: ls2).getLastD [] :=
          fun x => (List.getLastD_cons [] x (l2 :: ls2)).trans
            ((List.getLastD_cons x l2 ls2).trans (List.getLastD_cons [] l2 ls2).symm)
        have h2 : splitLines (cs ++ t) =
            l :: ((l2 :: ls2).dropLast ++ consBuf ((l2 :: ls2).getLastD []) (splitLines t)) := by
          rw [ih, hsplit, hg l]
          simp
        rw [splitLines_cons_ne c (cs ++ t) hc _ _ h2, hg (c :: l)]
        simp

theorem getLastD_of_ne_nil (M : List (List Char)) (h : M ≠ []) (a b : List Char) :
    M.getLastD a = M.getLastD b := by
  cases M with
  | nil => exact absurd rfl h
  | cons m ms => rw [List.getLastD_cons, List.getLastD_cons]

theorem getLastD_append (D M : List (List Char)) (h : M ≠ []) (d : List Char) :
    (D ++ M).getLastD d = M.getLastD d := by
  induction D generalizing d with
  | nil => rfl
  | cons a D ih =>
    rw [List.cons_append, List.getLastD_cons, ih a]
    exact getLastD_of_ne_nil M h a d

theorem getLastD_mem (l : List (List Char)) (d : List Char) (h : l ≠ []) :
    l.getLastD d ∈ l := by
  induction l generalizing d with
  | nil => exact absurd rfl h
  | cons a as ih =>
    rw [List.getLastD_cons]
    cases as with
    | nil => simp [List.getLastD]
    | cons b bs => exact List.mem_cons_of_mem a (ih a (by simp))

theorem dropLast_append_getLastD (l : List (List Char)) (h : l ≠ []) (d : List Char) :
    l.dropLast ++ [l.getLastD d] = l := by
  induction l generalizing d with
  | nil => exact absurd rfl h
  | cons a as ih =>
    cases as with
    | nil => simp [List.getLastD_cons]
    | cons b bs =>
      rw [List.getLastD_cons, List.dropLast_cons₂, List.cons_append, ih (by simp) a]

/-- Events a `Readable` stream delivers to the handlers registered in
`streamLines`; the `Bool` component of an event pair is the value of
`signal.aborted` at the moment the handler runs (consulted only by the
`error` handler). -/
inductive StreamEvent where
  | data (chunk : List Char)
  | eof
  | closed
  | errored
deriving DecidableEq, Repr

/-- State of one `streamLines` promise: the private line buffer, the ordered
sequence of dispatches chained on `pending`, and the promise outcome
(`none` = still pending, `some true` = resolved, `some false` = rejected). -/
structure StreamState where
  buffer : List Char
  records : List LogRecord
  outcome : Option Bool
deriving DecidableEq, Repr

def initialStreamState : StreamState := ⟨[], [], none⟩

/-- First settlement wins: resolving or rejecting an already settled promise
is a no-op. -/
def settleWith (b : Bool) (st : StreamState) : StreamState :=
  match st.outcome with
  | none => { st with outcome := some b }
  | some x => { st with outcome := some x }

def mkRecord (logger : Source) (text : List Char) : LogRecord :=
  ⟨levelOf logger, logger, text⟩

/-- One handler invocation of `streamLines` (src/executor.ts lines 59-93):
`data` appends the chunk to the buffer, splits on newlines, keeps the last
segment as the new buffer and chains each non-empty complete line onto
`pending`; `end` flushes a non-empty leftover buffer as one final line and
then resolves after the pending chain; `close` resolves after the pending
chain without flushing; `error` rejects unless `signal.aborted` held at that
moment, in which case it resolves after the chain. -/
def streamLines (logger : Source) (st : StreamState) (ev : StreamEvent × Bool) : StreamState :=
  match ev.1 with
  | StreamEvent.data chunk =>
      let lines := splitLines (st.buffer ++ chunk)
      { st with
        buffer := lines.getLastD []
        records := st.records ++ (lines.dropLast.filter (fun l => l ≠ [])).map (mkRecord logger) }
  | StreamEvent.eof =>
      let st1 := if st.buffer ≠ [] then
          { st with records := st.records ++ [mkRecord logger st.buffer] }
        else st
      settleWith true st1
  | StreamEvent.closed => settleWith true st
  | StreamEvent.errored =>
      if ev.2 then settleWith true st else settleWith false st

/-- The full life of one stream: fold the registered handlers over the event
sequence the stream emits. -/
def runStream (logger : Source) (evs : List (StreamEvent × Bool)) : StreamState :=
  evs.foldl (streamLines logger) initialStreamState

/-- Annotate a chunk list as `data` events (with `signal.aborted` false). -/
def dataEvents (chunks : List (List Char)) : List (StreamEvent × Bool) :=
  chunks.map (fun c => (StreamEvent.data c, false))

theorem buffer_no_newline_after_data (logger : Source) (st : StreamState) (c : List Char) :
    '\n' ∉ (streamLines logger st (StreamEvent.data c, false)).buffer := by
  have hne := splitLines_ne_nil (st.buffer ++ c)
  have hmem := getLastD_mem (splitLines (st.buffer ++ c)) [] hne
  exact splitLines_no_newline (st.buffer ++ c) _ hmem

/-- Characterization of a run of `data` handler invocations: starting from a
newline-free buffer, the buffer ends as the trailing remainder of the
accumulated content and exactly the non-empty complete lines have been
chained, in order. -/
theorem foldl_dataEvents (logger : Source) (chunks : List (List Char)) (st : StreamState)
    (hb : '\n' ∉ st.buffer) :
    (dataEvents chunks).foldl (streamLines logger) st =
      { st with
        buffer := (splitLines (st.buffer ++ chunks.flatten)).getLastD []
        records := st.records ++
          (((splitLines (st.buffer ++ chunks.flatten)).dropLast.filter
            (fun l => l ≠ [])).map (mkRecord logger)) } := by
  induction chunks generalizing st with
  | nil =>
    simp only [dataEvents, List.map_nil, List.foldl_nil, List.flatten_nil, List.append_nil]
    rw [splitLines_of_no_newline st.buffer hb]
    simp
  | cons c cs ih =>
    simp only [dataEvents, List.map_cons, List.foldl_cons, List.flatten_cons]
    simp only [dataEvents] at ih
    rw [ih _ (buffer_no_newline_after_data logger st c)]
    have hb1 : (streamLines logger st (StreamEvent.data c, false)).buffer =
        (splitLines (st.buffer ++ c)).getLastD [] := rfl
    have hr1 : (streamLines logger st (StreamEvent.data c, false)).records =
        st.records ++ ((splitLines (st.buffer ++ c)).dropLast.filter
          (fun l => l ≠ [])).map (mkRecord logger) := rfl
    have ho1 : (streamLines logger st (StreamEvent.data c, false)).outcome = st.outcome := rfl
    have hkey : splitLines (st.buffer ++ (c ++ cs.flatten)) =
        (splitLines (st.buffer ++ c)).dropLast ++
          splitLines ((splitLines (st.buffer ++ c)).getLastD [] ++ cs.flatten) := by
      rw [← List.append_assoc, splitLines_append (st.buffer ++ c) cs.flatten]
      have hnl : '\n' ∉ (splitLines (st.buffer ++ c)).getLastD [] :=
        buffer_no_newline_after_data logger st c
      rw [splitLines_append ((splitLines (st.buffer ++ c)).getLastD []) cs.flatten,
        splitLines_of_no_newline _ hnl]
      simp [List.getLastD_cons]
    have hlast : (splitLines (st.buffer ++ (c ++ cs.flatten))).getLastD [] =
        (splitLines ((splitLines (st.buffer ++ c)).getLastD [] ++ cs.flatten)).getLastD [] := by
      rw [hkey]
      exact getLastD_append _ _ (splitLines_ne_nil _) []
    have hdrop : (splitLines (st.buffer ++ (c ++ cs.flatten))).dropLast =
        (splitLines (st.buffer ++ c)).dropLast ++
          (splitLines ((splitLines (st.buffer ++ c)).getLastD [] ++ cs.flatten)).dropLast := by
      rw [hkey]
      rw [List.dropLast_append_of_ne_nil _ (splitLines_ne_nil _)]
    rw [hb1, hr1, ho1, hlast, hdrop]
    simp [List.filter_append, List.map_append]

/-- A stream that emits `chunks` and then ends gracefully (`end` event):
buffer flushed, exactly the non-empty lines of the whole content chained, and
the promise resolved. -/
theorem runStream_eof_eq (logger : Source) (chunks : List (List Char)) :
    runStream logger (dataEvents chunks ++ [(StreamEvent.eof, false)]) =
      ⟨(splitLines chunks.flatten).getLastD [],
       ((splitLines chunks.flatten).filter (fun l => l ≠ [])).map (mkRecord logger),
       some true⟩ := by
  have hred : ∀ (B : List Char) (Rs : List LogRecord),
      streamLines logger ⟨B, Rs, none⟩ (StreamEvent.eof, false) =
        ⟨B, Rs ++ (if B = [] then [] else [mkRecord logger B]), some true⟩ := by
    intro B Rs
    by_cases hB : B = []
    · subst hB
      simp [streamLines, settleWith]
    · simp [streamLines, settleWith, hB]
  have hinit : '\n' ∉ initialStreamState.buffer := by simp [initialStreamState]
  rw [runStream, List.foldl_append, foldl_dataEvents logger chunks initialStreamState hinit,
    List.foldl_cons, List.foldl_nil]
  have hsplit := dropLast_append_getLastD (splitLines chunks.flatten) (splitLines_ne_nil _) []
  show streamLines logger
      ⟨(splitLines chunks.flatten).getLastD [],
       ((splitLines chunks.flatten).dropLast.filter (fun l => l ≠ [])).map (mkRecord logger),
       none⟩ (StreamEvent.eof, false) = _
  rw [hred]
  have hrecords : ((splitLines chunks.flatten).filter (fun l => l ≠ [])).map (mkRecord logger) =
      ((splitLines chunks.flatten).dropLast.filter (fun l => l ≠ [])).map (mkRecord logger) ++
        (if (splitLines chunks.flatten).getLastD [] = [] then []
         else [mkRecord logger ((splitLines chunks.flatten).getLastD [])]) := by
    by_cases hB : (splitLines chunks.flatten).getLastD [] = []
    · have hB2 := hB
      simp only [List.getLastD_eq_getLast?] at hB2
      conv_lhs => rw [← hsplit]
      simp [List.filter_append, hB, hB2]
    · have hB2 := hB
      simp only [List.getLastD_eq_getLast?] at hB2
      conv_lhs => rw [← hsplit]
      simp [List.filter_append, hB, hB2]
  rw [hrecords]

/-- A stream that emits `chunks` and is then closed abruptly (`close` without
`end`): the leftover buffer is never flushed; only terminator-complete lines
are chained, and the promise resolves after the pending chain. -/
theorem runStream_closed_eq (logger : Source) (chunks : List (List Char)) :
    runStream logger (dataEvents chunks ++ [(StreamEvent.closed, false)]) =
      ⟨(splitLines chunks.flatten).getLastD [],
       ((splitLines chunks.flatten).dropLast.filter (fun l => l ≠ [])).map (mkRecord logger),
       some true⟩ := by
  have hinit : '\n' ∉ initialStreamState.buffer := by simp [initialStreamState]
  rw [runStream, List.foldl_append, foldl_dataEvents logger chunks initialStreamState hinit,
    List.foldl_cons, List.foldl_nil]
  show streamLines logger
      ⟨(splitLines chunks.flatten).getLastD [],
       ((splitLines chunks.flatten).dropLast.filter (fun l => l ≠ [])).map (mkRecord logger),
       none⟩ (StreamEvent.closed, false) = _
  rfl

/-- Result returned by `executeCommand` (`{ exitCode, killed }`). -/
structure ExecutionResult where
  exitCode : Int
  killed : Bool
deriving DecidableEq, Repr

/-- The environment a single `executeCommand` call observes: whether
`signal.aborted` held on entry, the event sequences the two pipes deliver,
the status code the process `close` event reports (`none` embeds a
`null`/abnormal code), and whether `signal.aborted` holds when the result
object is built. -/
structure ExecEnv where
  abortedAtCall : Bool
  stdoutEvents : List (StreamEvent × Bool)
  stderrEvents : List (StreamEvent × Bool)
  exitStatus : Option Int
  abortedAtReturn : Bool

/-- How one `executeCommand` call ends. -/
inductive ExecOutcome where
  | returned (r : ExecutionResult)
  | thrown
  | stillPending
deriving DecidableEq, Repr

/-- Observable behaviour of one `executeCommand` call: whether a child
process was spawned, the dispatch sequences of both streams, and how the
returned promise settles. -/
structure ExecBehavior where
  spawned : Bool
  stdoutRecords : List LogRecord
  stderrRecords : List LogRecord
  outcome : ExecOutcome
deriving DecidableEq, Repr

/-- Embedding of `executeCommand` (src/executor.ts lines 15-118): an already
active signal short-circuits to `{exitCode: -1, killed: true}` with no spawn
and no dispatches; otherwise both pipes are drained via `streamLines` and,
only once both stream promises resolve, the exit code (a null code defaulting
to 1) and the then-current `signal.aborted` are packaged; a rejected stream
promise rejects the whole call. -/
def executeCommand (env : ExecEnv) : ExecBehavior :=
  if env.abortedAtCall then
    ⟨false, [], [], ExecOutcome.returned ⟨-1, true⟩⟩
  else
    let so := runStream Source.stdout env.stdoutEvents
    let se := runStream Source.stderr env.stderrEvents
    ⟨true, so.records, se.records,
      match so.outcome, se.outcome with
      | some false, _ => ExecOutcome.thrown
      | _, some false => ExecOutcome.thrown
      | some true, some true =>
          ExecOutcome.returned ⟨env.exitStatus.getD 1, env.abortedAtReturn⟩
      | _, _ => ExecOutcome.stillPending⟩

/-- Status line of a sync-mode tool response (src/server.ts lines 232-289). -/
inductive StatusLine where
  | timedOut
  | cancelled
  | exitedWith (code : Int)
  | completed
  | failed
deriving DecidableEq, Repr

/-- A sync-mode tool response: the classification, the joined transcript when
non-empty, and the `isError` flag. -/
structure SyncResult where
  status : StatusLine
  transcript : Option (List Char)
  isError : Bool
deriving DecidableEq, Repr

/-- Embedding of `lines.join("\n")` over the transcript collected by the `log` callback. -/
def joinedOutput (lines : List (List Char)) : List Char :=
  List.intercalate ['\n'] lines

/-- Embedding of the result handling of the sync-mode `execute` tool
(src/server.ts lines 223-291): a killed run is classified timed-out when
`timeoutSignal?.aborted ?? false` holds and cancelled otherwise; a non-zero
exit is a failure carrying the code; exit 0 succeeds; a thrown execution
error is a failure; every branch attaches the joined output when it is
non-empty. `none` embeds an execution that never settled. -/
def classifySync (outcome : ExecOutcome) (timeoutAborted : Option Bool)
    (lines : List (List Char)) : Option SyncResult :=
  let output := joinedOutput lines
  let transcript := if output = [] then none else some output
  match outcome with
  | ExecOutcome.returned r =>
      if r.killed then
        some ⟨if timeoutAborted.getD false then StatusLine.timedOut else StatusLine.cancelled,
          transcript, true⟩
      else if r.exitCode ≠ 0 then
        some ⟨StatusLine.exitedWith r.exitCode, transcript, true⟩
      else
        some ⟨StatusLine.completed, transcript, false⟩
  | ExecOutcome.thrown => some ⟨StatusLine.failed, transcript, true⟩
  | ExecOutcome.stillPending => none

/-- Task lifecycle states. -/
inductive TaskStatus where
  | submitted
  | working
  | completed
  | failed
  | cancelled
deriving DecidableEq, Repr

/-- The terminal states: {completed, failed, cancelled}. -/
def TaskStatus.isTerminal : TaskStatus → Bool
  | TaskStatus.completed => true
  | TaskStatus.failed => true
  | TaskStatus.cancelled => true
  | _ => false

/-- The stored payload of a finished task. -/
structure TaskResult where
  text : List Char
  isError : Bool
deriving DecidableEq, Repr

/-- A durable, pollable task record. -/
structure TaskRec where
  status : TaskStatus
  statusMessage : Option (List Char)
  result : Option TaskResult
deriving DecidableEq, Repr

/-- Modelled from the spec: the generic task store backing `ExoTaskStore`
(the SDK's `InMemoryTaskStore`, whose source is not part of this repository)
accepts no further status transition once a task is in a terminal state; a
rejected transition leaves the record unchanged. -/
def updateTaskStatusBase (t : TaskRec) (status : TaskStatus)
    (msg : Option (List Char)) : TaskRec :=
  if t.status.isTerminal then t
  else { t with status := status, statusMessage := msg }

/-- Modelled from the spec: storing a final result enters a terminal state
exactly once; on a task already terminal the call is rejected and the record
is unchanged. -/
def storeTaskResultBase (t : TaskRec) (status : TaskStatus) (res : TaskResult) : TaskRec :=
  if t.status.isTerminal then t
  else { t with status := status, result := some res }

/-- What the tail of `runBackgroundExecution` asks the task store to do
after `executeCommand` returns. -/
inductive BackgroundAction where
  | noStore
  | storeKilledFailed (timedOut : Bool)
  | storeExitFailed (code : Int)
  | storeCompleted
deriving DecidableEq, Repr

/-- Embedding of the result handling of `runBackgroundExecution`
(src/task.ts lines 93-154): on a killed run the task is re-fetched and, when
it already shows `cancelled`, nothing is stored; otherwise a failed result is
stored whose wording depends on `timeoutSignal?.aborted ?? false`; a non-zero
exit stores a failed result; exit 0 stores the completed result. -/
def runBackgroundExecution (result : ExecutionResult)
    (taskStatus : Option TaskStatus) (timeoutAborted : Option Bool) : BackgroundAction :=
  if result.killed then
    if taskStatus = some TaskStatus.cancelled then BackgroundAction.noStore
    else BackgroundAction.storeKilledFailed (timeoutAborted.getD false)
  else if result.exitCode ≠ 0 then BackgroundAction.storeExitFailed result.exitCode
  else BackgroundAction.storeCompleted

/-- Apply a background action to the task record through the store. -/
def applyAction (t : TaskRec) : BackgroundAction → TaskRec
  | BackgroundAction.noStore => t
  | BackgroundAction.storeKilledFailed _ =>
      storeTaskResultBase t TaskStatus.failed ⟨[], true⟩
  | BackgroundAction.storeExitFailed _ =>
      storeTaskResultBase t TaskStatus.failed ⟨[], true⟩
  | BackgroundAction.storeCompleted =>
      storeTaskResultBase t TaskStatus.completed ⟨[], false⟩

/-- Assoc-list lookup keyed by task id (`Map.get`). -/
def lookupKey {α : Type} : List (Nat × α) → Nat → Option α
  | [], _ => none
  | (k2, v) :: rest, k => if k2 = k then some v else lookupKey rest k

/-- Remove every entry under a key (`Map.delete`). -/
def eraseKey {α : Type} (xs : List (Nat × α)) (k : Nat) : List (Nat × α) :=
  xs.filter (fun p => p.1 ≠ k)

/-- Point-update of the record stored under a key. -/
def updateKey {α : Type} (xs : List (Nat × α)) (k : Nat) (f : α → α) : List (Nat × α) :=
  xs.map (fun p => if p.1 = k then (p.1, f p.2) else p)

theorem lookupKey_eraseKey {α : Type} (xs : List (Nat × α)) (k : Nat) :
    lookupKey (eraseKey xs k) k = none := by
  induction xs with
  | nil => rfl
  | cons p rest ih =>
    by_cases hp : p.1 = k
    · simp [eraseKey, hp] at ih ⊢
      exact ih
    · simp [eraseKey, List.filter_cons, hp, lookupKey] at ih ⊢
      exact ih

/-- The joint state of the task-mode manager: the task store, the
taskId-keyed control-handle table (`activeExecutions`), the taskId-keyed pids
of live spawned processes, and the set of task ids whose process group was
sent the termination signal. -/
structure ManagerState where
  tasks : List (Nat × TaskRec)
  controllers : List (Nat × Bool)
  pids : List (Nat × Nat)
  groupKilled : List Nat
deriving DecidableEq, Repr

/-- Firing a task's AbortController: the one-shot `abort` listener that
`executeCommand` registered (src/executor.ts lines 31-41) sends `SIGTERM` to
`-proc.pid`, the whole process group, when the process has a pid. -/
def fireController (st : ManagerState) (taskId : Nat) : ManagerState :=
  match lookupKey st.pids taskId with
  | some _ => { st with groupKilled := taskId :: st.groupKilled }
  | none => st

/-- Embedding of `ExoTaskStore.updateTaskStatus` (src/task.ts lines 26-41):
delegate to the base store and then, exactly when the written status is
`cancelled`, fire the controller found in the taskId-keyed control-handle
table and delete its entry. -/
def exoUpdateTaskStatus (st : ManagerState) (taskId : Nat) (status : TaskStatus)
    (msg : Option (List Char)) : ManagerState :=
  let st1 := { st with
    tasks := updateKey st.tasks taskId (fun t => updateTaskStatusBase t status msg) }
  if status = TaskStatus.cancelled then
    match lookupKey st1.controllers taskId with
    | some _ =>
        { fireController st1 taskId with controllers := eraseKey st1.controllers taskId }
    | none => st1
  else st1

/-- A resolved command of the loaded configuration. -/
structure Command where
  name : List Char
  command : List Char
  cwd : Option (List Char)
deriving DecidableEq, Repr

/-- Outcome of the `createTask` handler: the value returned or error thrown,
the task records the handler created, and whether a background execution was
started. -/
structure CreateOutcome where
  result : Except (List Char) TaskRec
  tasksCreated : List TaskRec
  executionStarted : Bool
deriving Repr

/-- Embedding of the `createTask` handler (src/task.ts lines 226-290): the
config is loaded and the command name resolved before any task exists; a
config error or an unknown name throws with no task created and nothing
spawned; otherwise a task is created in `submitted` and the background
execution is started.  (Error message text is abstracted to the unknown
name.) -/
def createTask (cfg : Except (List Char) (List Command)) (commandName : List Char) :
    CreateOutcome :=
  match cfg with
  | Except.error e => ⟨Except.error e, [], false⟩
  | Except.ok commands =>
    match commands.find? (fun c => c.name == commandName) with
    | none => ⟨Except.error commandName, [], false⟩
    | some _ =>
        ⟨Except.ok ⟨TaskStatus.submitted, none, none⟩,
         [⟨TaskStatus.submitted, none, none⟩], true⟩

/-- Operations on one stream's `pending` dispatch chain, as interleaved by
the event loop: `enqueue` chains a new dispatch (a handler appended
`pending.then(() => log(...))`) and `tick` gives the chain a slice of
execution — starting the next dispatch, or advancing / finishing the one in
flight, since `onLog` may suspend across many ticks. -/
inductive ChainOp where
  | enqueue (r : LogRecord) (cost : Nat)
  | tick
deriving DecidableEq, Repr

/-- State of a `pending` promise chain: dispatches not yet started, the at
most one dispatch currently running (with its remaining suspension steps),
and the dispatches that have completed, in completion order. -/
structure ChainState where
  queued : List (LogRecord × Nat)
  inFlight : Option (LogRecord × Nat)
  delivered : List LogRecord
deriving DecidableEq, Repr

def chainStep (st : ChainState) : ChainOp → ChainState
  | ChainOp.enqueue r cost => { st with queued := st.queued ++ [(r, cost)] }
  | ChainOp.tick =>
    match st.inFlight with
    | some (r, n + 1) => { st with inFlight := some (r, n) }
    | some (r, 0) => { st with inFlight := none, delivered := st.delivered ++ [r] }
    | none =>
      match st.queued with
      | [] => st
      | q :: rest => { st with queued := rest, inFlight := some q }

/-- Run a schedule against an initially empty chain. -/
def chainRun (ops : List ChainOp) : ChainState :=
  ops.foldl chainStep ⟨[], none, []⟩

/-- The dispatches a schedule enqueues, in arrival order. -/
def arrivals (ops : List ChainOp) : List LogRecord :=
  ops.filterMap (fun op => match op with
    | ChainOp.enqueue r _ => some r
    | ChainOp.tick => none)

/-- The dispatches a chain state still owes. -/
def owed (st : ChainState) : List LogRecord :=
  (st.inFlight.toList.map (fun p => p.1)) ++ st.queued.map (fun p => p.1)

/-- The chain never loses, duplicates or reorders a dispatch: under any
schedule, completed dispatches followed by still-owed ones are exactly the
arrivals in order. -/
theorem chain_invariant (ops : List ChainOp) (st : ChainState) :
    (ops.foldl chainStep st).delivered ++ owed (ops.foldl chainStep st) =
      (st.delivered ++ owed st) ++ arrivals ops := by
  induction ops generalizing st with
  | nil => simp [arrivals]
  | cons op rest ih =>
    rw [List.foldl_cons, ih]
    cases op with
    | enqueue r cost => simp [chainStep, arrivals, owed]
    | tick =>
      cases hf : st.inFlight with
      | some p =>
        rcases p with ⟨r, n⟩
        cases n with
        | zero => simp [chainStep, arrivals, owed, hf]
        | succ m => simp [chainStep, arrivals, owed, hf]
      | none =>
        cases hq : st.queued with
        | nil => simp [chainStep, arrivals, owed, hf, hq]
        | cons q qrest => simp [chainStep, arrivals, owed, hf, hq]

/-- C1: for every byte stream consumed by `run` (stdout and stderr
independently), the records dispatched are exactly the non-empty lines of the
stream's content in order — a command emitting N discrete lines with no
trailing terminator produces exactly N non-empty records including a final
flush of the unterminated remainder, empty lines and a trailing empty buffer
remainder are never emitted, and every record carries level=info for stdout
and level=error for stderr. -/
theorem c1_stream_line_records (logger : Source) (chunks : List (List Char)) :
    (runStream logger (dataEvents chunks ++ [(StreamEvent.eof, false)])).records =
      ((splitLines chunks.flatten).filter (fun l => l ≠ [])).map (mkRecord logger)
    ∧ (runStream logger (dataEvents chunks ++ [(StreamEvent.eof, false)])).records.length =
        ((splitLines chunks.flatten).filter (fun l => l ≠ [])).length
    ∧ ∀ r ∈ (runStream logger (dataEvents chunks ++ [(StreamEvent.eof, false)])).records,
        r.text ≠ [] ∧ r.source = logger ∧
        (logger = Source.stdout → r.level = Level.info) ∧
        (logger = Source.stderr → r.level = Level.error) := by
  rw [runStream_eof_eq]
  refine ⟨rfl, by simp, ?_⟩
  intro r hr
  simp only [List.mem_map, List.mem_filter] at hr
  obtain ⟨l, ⟨_, hl⟩, hrec⟩ := hr
  subst hrec
  refine ⟨by simpa using hl, rfl, ?_, ?_⟩ <;> intro hlog <;> subst hlog <;> rfl

/-- C2: a cancellation signal already active when `run` is called makes it
return `{exitCode: -1, killed: true}` immediately, spawning no process and
dispatching zero log records. -/
theorem c2_pre_aborted_short_circuit (env : ExecEnv) (h : env.abortedAtCall = true) :
    executeCommand env = ⟨false, [], [], ExecOutcome.returned ⟨-1, true⟩⟩ := by
  simp [executeCommand, h]

theorem c2_pre_aborted_short_circuit_witness :
    executeCommand ⟨true, [(StreamEvent.eof, false)], [(StreamEvent.eof, false)],
        some 0, true⟩ =
      ⟨false, [], [], ExecOutcome.returned ⟨-1, true⟩⟩ :=
  c2_pre_aborted_short_circuit
    ⟨true, [(StreamEvent.eof, false)], [(StreamEvent.eof, false)], some 0, true⟩ rfl

/-- C3: per-stream dispatches flow through one sequential drain path — under
any event-loop schedule the delivered dispatches are a prefix of the arrivals
in order, and a fully drained chain has delivered exactly the arrivals — and
`run` awaits full drain of both streams before reading the exit code, so the
record sequences accompanying the returned result are the complete per-stream
dispatch sequences. -/
theorem c3_sequential_drain_full_delivery (ops : List ChainOp) (env : ExecEnv)
    (h1 : env.abortedAtCall = false)
    (h2 : (runStream Source.stdout env.stdoutEvents).outcome = some true)
    (h3 : (runStream Source.stderr env.stderrEvents).outcome = some true) :
    (∃ rest, (chainRun ops).delivered ++ rest = arrivals ops)
    ∧ (owed (chainRun ops) = [] → (chainRun ops).delivered = arrivals ops)
    ∧ (executeCommand env).stdoutRecords = (runStream Source.stdout env.stdoutEvents).records
    ∧ (executeCommand env).stderrRecords = (runStream Source.stderr env.stderrEvents).records
    ∧ (executeCommand env).outcome =
        ExecOutcome.returned ⟨env.exitStatus.getD 1, env.abortedAtReturn⟩ := by
  have hinv := chain_invariant ops ⟨[], none, []⟩
  simp only [owed, Option.toList_none, List.map_nil, List.nil_append, List.append_nil,
    List.map_nil] at hinv
  refine ⟨⟨owed (chainRun ops), ?_⟩, ?_, ?_, ?_, ?_⟩
  · simpa [chainRun, owed] using hinv
  · intro hdr
    have h4 : (chainRun ops).delivered ++ owed (chainRun ops) = arrivals ops := by
      simpa [chainRun, owed] using hinv
    rw [hdr, List.append_nil] at h4
    exact h4
  · simp [executeCommand, h1]
  · simp [executeCommand, h1]
  · simp [executeCommand, h1, h2, h3]

theorem c3_sequential_drain_full_delivery_witness :
    (∃ rest, (chainRun [ChainOp.enqueue (mkRecord Source.stdout ['a']) 2, ChainOp.tick,
        ChainOp.tick, ChainOp.tick, ChainOp.tick]).delivered ++ rest =
      arrivals [ChainOp.enqueue (mkRecord Source.stdout ['a']) 2, ChainOp.tick,
        ChainOp.tick, ChainOp.tick, ChainOp.tick])
    ∧ (owed (chainRun [ChainOp.enqueue (mkRecord Source.stdout ['a']) 2, ChainOp.tick,
          ChainOp.tick, ChainOp.tick, ChainOp.tick]) = [] →
        (chainRun [ChainOp.enqueue (mkRecord Source.stdout ['a']) 2, ChainOp.tick,
          ChainOp.tick, ChainOp.tick, ChainOp.tick]).delivered =
        arrivals [ChainOp.enqueue (mkRecord Source.stdout ['a']) 2, ChainOp.tick,
          ChainOp.tick, ChainOp.tick, ChainOp.tick])
    ∧ (executeCommand ⟨false, [(StreamEvent.eof, false)], [(StreamEvent.eof, false)],
        some 0, false⟩).stdoutRecords =
          (runStream Source.stdout [(StreamEvent.eof, false)]).records
    ∧ (executeCommand ⟨false, [(StreamEvent.eof, false)], [(StreamEvent.eof, false)],
        some 0, false⟩).stderrRecords =
          (runStream Source.stderr [(StreamEvent.eof, false)]).records
    ∧ (executeCommand ⟨false, [(StreamEvent.eof, false)], [(StreamEvent.eof, false)],
        some 0, false⟩).outcome =
          ExecOutcome.returned ⟨(some (0 : Int)).getD 1, false⟩ :=
  c3_sequential_drain_full_delivery
    [ChainOp.enqueue (mkRecord Source.stdout ['a']) 2, ChainOp.tick,
      ChainOp.tick, ChainOp.tick, ChainOp.tick]
    ⟨false, [(StreamEvent.eof, false)], [(StreamEvent.eof, false)], some 0, false⟩
    rfl rfl rfl

/-- C4: for every run that spawns a process, the returned result's exitCode
equals the process's exit status with a null/abnormal code defaulting to 1,
and killed equals whether cancellation occurred during the run, independent
of the exit code; in particular an exit status of 42 with no cancellation
yields `{exitCode: 42, killed: false}`. -/
theorem c4_exit_code_and_killed (env : ExecEnv)
    (h1 : env.abortedAtCall = false)
    (h2 : (runStream Source.stdout env.stdoutEvents).outcome = some true)
    (h3 : (runStream Source.stderr env.stderrEvents).outcome = some true) :
    (executeCommand env).spawned = true
    ∧ (executeCommand env).outcome =
        ExecOutcome.returned ⟨env.exitStatus.getD 1, env.abortedAtReturn⟩
    ∧ (∀ r, (executeCommand env).outcome = ExecOutcome.returned r →
        r.killed = env.abortedAtReturn)
    ∧ (env.exitStatus = none →
        (executeCommand env).outcome = ExecOutcome.returned ⟨1, env.abortedAtReturn⟩)
    ∧ (env.exitStatus = some 42 → env.abortedAtReturn = false →
        (executeCommand env).outcome = ExecOutcome.returned ⟨42, false⟩) := by
  have houtcome : (executeCommand env).outcome =
      ExecOutcome.returned ⟨env.exitStatus.getD 1, env.abortedAtReturn⟩ := by
    simp [executeCommand, h1, h2, h3]
  refine ⟨by simp [executeCommand, h1], houtcome, ?_, ?_, ?_⟩
  · intro r hr
    rw [houtcome] at hr
    cases hr
    rfl
  · intro hnull
    rw [houtcome, hnull]
    rfl
  · intro h42 hnoab
    rw [houtcome, h42, hnoab]
    rfl

theorem c4_exit_code_and_killed_witness :
    (executeCommand ⟨false, [(StreamEvent.eof, false)], [(StreamEvent.eof, false)],
        some 42, false⟩).spawned = true
    ∧ (executeCommand ⟨false, [(StreamEvent.eof, false)], [(StreamEvent.eof, false)],
        some 42, false⟩).outcome =
          ExecOutcome.returned ⟨(some (42 : Int)).getD 1, false⟩
    ∧ (∀ r, (executeCommand ⟨false, [(StreamEvent.eof, false)], [(StreamEvent.eof, false)],
        some 42, false⟩).outcome = ExecOutcome.returned r → r.killed = false)
    ∧ ((some (42 : Int) = none) →
        (executeCommand ⟨false, [(StreamEvent.eof, false)], [(StreamEvent.eof, false)],
          some 42, false⟩).outcome = ExecOutcome.returned ⟨1, false⟩)
    ∧ (some (42 : Int) = some 42 → false = false →
        (executeCommand ⟨false, [(StreamEvent.eof, false)], [(StreamEvent.eof, false)],
          some 42, false⟩).outcome = ExecOutcome.returned ⟨42, false⟩) :=
  c4_exit_code_and_killed
    ⟨false, [(StreamEvent.eof, false)], [(StreamEvent.eof, false)], some 42, false⟩
    rfl rfl rfl

/-- C5: once a background task reaches a terminal state no further transition
is accepted, and when the runner observes `killed:true` on a task already
showing cancelled, the background execution stores nothing over it, so the
cancelled state is preserved. -/
theorem c5_terminal_monotone_cancel_preserved
    (t : TaskRec) (ht : t.status.isTerminal = true)
    (s : TaskStatus) (msg : Option (List Char)) (res : TaskResult)
    (r : ExecutionResult) (hk : r.killed = true)
    (tc : TaskRec) (hc : tc.status = TaskStatus.cancelled)
    (timeoutAborted : Option Bool) :
    updateTaskStatusBase t s msg = t
    ∧ storeTaskResultBase t s res = t
    ∧ runBackgroundExecution r (some tc.status) timeoutAborted = BackgroundAction.noStore
    ∧ (applyAction tc (runBackgroundExecution r (some tc.status) timeoutAborted)).status =
        TaskStatus.cancelled := by
  refine ⟨by simp [updateTaskStatusBase, ht], by simp [storeTaskResultBase, ht], ?_, ?_⟩
  · simp [runBackgroundExecution, hk, hc]
  · simp [runBackgroundExecution, hk, hc, applyAction]

theorem c5_terminal_monotone_cancel_preserved_witness :
    updateTaskStatusBase ⟨TaskStatus.completed, none, none⟩ TaskStatus.working none =
      ⟨TaskStatus.completed, none, none⟩
    ∧ storeTaskResultBase ⟨TaskStatus.completed, none, none⟩ TaskStatus.working ⟨[], true⟩ =
      ⟨TaskStatus.completed, none, none⟩
    ∧ runBackgroundExecution ⟨(-1 : Int), true⟩
        (some (TaskRec.status ⟨TaskStatus.cancelled, none, none⟩)) none =
          BackgroundAction.noStore
    ∧ (applyAction ⟨TaskStatus.cancelled, none, none⟩
        (runBackgroundExecution ⟨(-1 : Int), true⟩
          (some (TaskRec.status ⟨TaskStatus.cancelled, none, none⟩)) none)).status =
        TaskStatus.cancelled :=
  c5_terminal_monotone_cancel_preserved
    ⟨TaskStatus.completed, none, none⟩ rfl TaskStatus.working none ⟨[], true⟩
    ⟨(-1 : Int), true⟩ rfl ⟨TaskStatus.cancelled, none, none⟩ rfl none

/-- C6: an externally driven status write to cancelled, arriving through the
cancel channel of `ExoTaskStore.updateTaskStatus`, fires the AbortController
held in the taskId-keyed control-handle table and removes the handle, and
through the abort listener registered by `executeCommand` the spawned
process's group receives the termination signal. -/
theorem c6_external_cancel_kills_process_group (st : ManagerState) (taskId : Nat)
    (msg : Option (List Char)) (ac : Bool) (pid : Nat)
    (h1 : lookupKey st.controllers taskId = some ac)
    (h2 : lookupKey st.pids taskId = some pid) :
    lookupKey (exoUpdateTaskStatus st taskId TaskStatus.cancelled msg).controllers taskId = none
    ∧ taskId ∈ (exoUpdateTaskStatus st taskId TaskStatus.cancelled msg).groupKilled := by
  simp [exoUpdateTaskStatus, fireController, h1, h2, lookupKey_eraseKey]

theorem c6_external_cancel_kills_process_group_witness :
    lookupKey (exoUpdateTaskStatus
        ⟨[(1, ⟨TaskStatus.working, none, none⟩)], [(1, false)], [(1, 99)], []⟩
        1 TaskStatus.cancelled none).controllers 1 = none
    ∧ 1 ∈ (exoUpdateTaskStatus
        ⟨[(1, ⟨TaskStatus.working, none, none⟩)], [(1, false)], [(1, 99)], []⟩
        1 TaskStatus.cancelled none).groupKilled :=
  c6_external_cancel_kills_process_group
    ⟨[(1, ⟨TaskStatus.working, none, none⟩)], [(1, false)], [(1, 99)], []⟩
    1 none false 99 rfl rfl

/-- C7: a background execute request whose command name does not resolve in
the loaded configuration fails synchronously by throwing before task
creation: no task is created and no execution is started. -/
theorem c7_unknown_name_fails_before_task (commands : List Command)
    (commandName : List Char)
    (h : commands.find? (fun c => c.name == commandName) = none) :
    (∃ e, (createTask (Except.ok commands) commandName).result = Except.error e)
    ∧ (createTask (Except.ok commands) commandName).tasksCreated = []
    ∧ (createTask (Except.ok commands) commandName).executionStarted = false := by
  refine ⟨⟨commandName, ?_⟩, ?_, ?_⟩ <;> simp [createTask, h]

theorem c7_unknown_name_fails_before_task_witness :
    (∃ e, (createTask (Except.ok [(⟨['b'], ['l', 's'], none⟩ : Command)]) ['a']).result =
      Except.error e)
    ∧ (createTask (Except.ok [(⟨['b'], ['l', 's'], none⟩ : Command)]) ['a']).tasksCreated = []
    ∧ (createTask (Except.ok [(⟨['b'], ['l', 's'], none⟩ : Command)]) ['a']).executionStarted =
        false :=
  c7_unknown_name_fails_before_task [⟨['b'], ['l', 's'], none⟩] ['a'] (by decide)

/-- C8: a stream IO error while cancellation is active is swallowed and the
stream settles normally; otherwise the error rejects the stream, the whole
run throws, and the thrown run is surfaced as a failed classification rather
than a delivered result. -/
theorem c8_stream_error_handling (logger : Source) (evs : List (StreamEvent × Bool))
    (hpending : (runStream logger evs).outcome = none)
    (env : ExecEnv) (h1 : env.abortedAtCall = false)
    (herr : (runStream Source.stdout env.stdoutEvents).outcome = some false)
    (lines : List (List Char)) (timeoutAborted : Option Bool) :
    (runStream logger (evs ++ [(StreamEvent.errored, true)])).outcome = some true
    ∧ (runStream logger (evs ++ [(StreamEvent.errored, false)])).outcome = some false
    ∧ (executeCommand env).outcome = ExecOutcome.thrown
    ∧ classifySync (executeCommand env).outcome timeoutAborted lines =
        some ⟨StatusLine.failed,
          if joinedOutput lines = [] then none else some (joinedOutput lines), true⟩ := by
  have hext : ∀ b : Bool, runStream logger (evs ++ [(StreamEvent.errored, b)]) =
      streamLines logger (runStream logger evs) (StreamEvent.errored, b) := by
    intro b
    rw [runStream, List.foldl_append, List.foldl_cons, List.foldl_nil]
    rfl
  have hthrown : (executeCommand env).outcome = ExecOutcome.thrown := by
    simp [executeCommand, h1, herr]
  refine ⟨?_, ?_, hthrown, ?_⟩
  · rw [hext true]
    simp [streamLines, settleWith, hpending]
  · rw [hext false]
    simp [streamLines, settleWith, hpending]
  · rw [hthrown]
    simp [classifySync]

theorem c8_stream_error_handling_witness :
    (runStream Source.stdout ([] ++ [(StreamEvent.errored, true)])).outcome = some true
    ∧ (runStream Source.stdout ([] ++ [(StreamEvent.errored, false)])).outcome = some false
    ∧ (executeCommand ⟨false, [(StreamEvent.errored, false)], [(StreamEvent.eof, false)],
        some 0, true⟩).outcome = ExecOutcome.thrown
    ∧ classifySync (executeCommand ⟨false, [(StreamEvent.errored, false)],
          [(StreamEvent.eof, false)], some 0, true⟩).outcome none [] =
        some ⟨StatusLine.failed,
          if joinedOutput [] = [] then none else some (joinedOutput []), true⟩ :=
  c8_stream_error_handling Source.stdout []
    rfl
    ⟨false, [(StreamEvent.errored, false)], [(StreamEvent.eof, false)], some 0, true⟩
    rfl rfl [] none

/-- C9: a streaming-mode execution ending with killed:true is classified
timed-out exactly when the timeout constituent of the composed signal fired
and cancelled otherwise, and either way the response carries the full joined
transcript when it is non-empty. -/
theorem c9_killed_classification (r : ExecutionResult) (hk : r.killed = true)
    (timeoutAborted : Option Bool) (lines : List (List Char)) :
    classifySync (ExecOutcome.returned r) timeoutAborted lines =
      some ⟨if timeoutAborted.getD false then StatusLine.timedOut else StatusLine.cancelled,
        if joinedOutput lines = [] then none else some (joinedOutput lines), true⟩
    ∧ ((classifySync (ExecOutcome.returned r) timeoutAborted lines).map SyncResult.status =
        some StatusLine.timedOut ↔ timeoutAborted = some true)
    ∧ (joinedOutput lines ≠ [] →
        (classifySync (ExecOutcome.returned r) timeoutAborted lines).map
          SyncResult.transcript = some (some (joinedOutput lines))) := by
  have hcls : classifySync (ExecOutcome.returned r) timeoutAborted lines =
      some ⟨if timeoutAborted.getD false then StatusLine.timedOut else StatusLine.cancelled,
        if joinedOutput lines = [] then none else some (joinedOutput lines), true⟩ := by
    simp [classifySync, hk]
  refine ⟨hcls, ?_, ?_⟩
  · rw [hcls]
    cases timeoutAborted with
    | none => simp
    | some b => cases b <;> simp
  · intro hne
    rw [hcls]
    simp [hne]

theorem c9_killed_classification_witness :
    classifySync (ExecOutcome.returned ⟨(-1 : Int), true⟩) (some true) [['a']] =
      some ⟨if (some true).getD false then StatusLine.timedOut else StatusLine.cancelled,
        if joinedOutput [['a']] = [] then none else some (joinedOutput [['a']]), true⟩
    ∧ ((classifySync (ExecOutcome.returned ⟨(-1 : Int), true⟩) (some true) [['a']]).map
        SyncResult.status = some StatusLine.timedOut ↔ (some true : Option Bool) = some true)
    ∧ (joinedOutput [['a']] ≠ [] →
        (classifySync (ExecOutcome.returned ⟨(-1 : Int), true⟩) (some true) [['a']]).map
          SyncResult.transcript = some (some (joinedOutput [['a']]))) :=
  c9_killed_classification ⟨(-1 : Int), true⟩ rfl (some true) [['a']]

/-- C10: a stream ending via abrupt closure (`close` without `end`) discards
any non-empty leftover buffer remainder rather than flushing it: only lines
whose terminator arrived before closure are dispatched, in order, and the
stream settles after pending dispatches finish. -/
theorem c10_abrupt_close_discards_remainder (logger : Source) (chunks : List (List Char)) :
    (runStream logger (dataEvents chunks ++ [(StreamEvent.closed, false)])).records =
      ((splitLines chunks.flatten).dropLast.filter (fun l => l ≠ [])).map (mkRecord logger)
    ∧ (runStream logger (dataEvents chunks ++ [(StreamEvent.closed, false)])).outcome =
        some true := by
  rw [runStream_closed_eq]
  exact ⟨rfl, rfl⟩
